import Mathlib

/-!
Verification development for `packages/docutils/lib/init.ts`.

The file shallowly embeds the docutils `init` module: the mkdocs
scaffold transform, the Python dependency installer, and the `init`
orchestrator, together with a model (from the design document) of the
generic scaffold-task shell (`init-task.ts`, whose source is not part
of this tree).  JavaScript values that can occur in the configuration
objects are modelled by the inductive `JVal`; `undefined` is `JVal.undefined`,
nullish coalescing is `jsOr`, and JS truthiness is `truthy`.
-/

namespace Docutils

/-- JavaScript values occurring in the configuration objects handled by
this module (strings, booleans, arrays, nested objects, `undefined`). -/
inductive JVal where
  | str : String → JVal
  | bool : Bool → JVal
  | arr : List JVal → JVal
  | obj : List (String × JVal) → JVal
  | undefined : JVal

mutual

/-- JS string coercion (`String(v)`), as used by `new URL(x)` when `x`
is not already a string and by `%s` formatting. -/
def JVal.toStr : JVal → String
  | .str s => s
  | .bool b => if b then "true" else "false"
  | .undefined => "undefined"
  | .arr xs => JVal.arrToStr xs
  | .obj _ => "[object Object]"

/-- JS `Array.prototype.toString`: elements joined with commas. -/
def JVal.arrToStr : List JVal → String
  | [] => ""
  | [x] => JVal.toStr x
  | x :: xs => JVal.toStr x ++ "," ++ JVal.arrToStr xs

end

/-- JS truthiness for the modelled values: the empty string, `false`
and `undefined` are falsy, everything else is truthy. -/
def truthy : JVal → Bool
  | .str s => !(s == "")
  | .bool b => b
  | .arr _ => true
  | .obj _ => true
  | .undefined => false

/-- JS nullish coalescing `a ?? b` (no `null` occurs in this module, so
only `undefined` selects the right operand). -/
def jsOr (a b : JVal) : JVal :=
  match a with
  | .undefined => b
  | v => v

/-- An optional string (a CLI option or a `package.json` field) viewed
as a JS value: `none` is `undefined`. -/
def optVal : Option String → JVal
  | some s => .str s
  | none => .undefined

/-- A JS object as held in a parsed configuration file: an association
list from keys to values (insertion order preserved). -/
abbrev Content := List (String × JVal)

/-- Property write `o[k] = v` / spread override `\x7b...o, k: v\x7d` on an
association list: replaces the first binding of `k`, else appends. -/
def assocSet {β : Type} : List (String × β) → String → β → List (String × β)
  | [], k, v => [(k, v)]
  | (k', v') :: rest, k, v =>
    if k' == k then (k, v) :: rest else (k', v') :: assocSet rest k v

/-- Property read `o[k]` on a JS object: `undefined` when the key is
absent. -/
def contentGet (c : Content) (k : String) : JVal :=
  (c.lookup k).getD .undefined

/-- Options accepted by the mkdocs scaffold task
(`InitMkDocsOptions`): the five file-specific string options. -/
structure MkDocsOpts where
  siteName : Option String := none
  repoUrl : Option String := none
  repoName : Option String := none
  siteDescription : Option String := none
  copyright : Option String := none

/-- The `repository` field of the project metadata. -/
structure PackageRepository where
  url : Option String := none

/-- Project metadata (`package.json` fields read by this module). -/
structure PackageJson where
  name : Option String := none
  description : Option String := none
  repository : Option PackageRepository := none

/-- JS optional chaining `pkg.repository?.url`. -/
def pkgRepositoryUrl (pkg : PackageJson) : Option String :=
  pkg.repository.bind PackageRepository.url

/-- Logging channels: the `init`-tagged logger and the `dry-run`-tagged
logger. -/
inductive Channel where
  | init : Channel
  | dryRun : Channel
deriving DecidableEq, Repr

/-- The log messages emitted by this module, one constructor per call
site, carrying the interpolated values. -/
inductive LogMsg where
  | usingSiteName : String → LogMsg
  | usingRepoUrl : String → LogMsg
  | usingRepoName : String → LogMsg
  | usingSiteDescription : String → LogMsg
  | wouldExecute : String → LogMsg
  | executingCommand : String → LogMsg
  | installingPythonDeps : LogMsg
  | installedPythonDeps : LogMsg
  | typedocRequiresTsConfig : LogMsg
deriving DecidableEq, Repr

/-- The exact message text of each log call site in the source. -/
def LogMsg.render : LogMsg → String
  | .usingSiteName v => "Using site name from package.json: " ++ v
  | .usingRepoUrl v => "Using repo URL from package.json: " ++ v
  | .usingRepoName v => "Using repo name from package.json: " ++ v
  | .usingSiteDescription v => "Using site description URL from package.json: " ++ v
  | .wouldExecute cmd => "Would execute command: " ++ cmd
  | .executingCommand cmd => "Executing command: " ++ cmd
  | .installingPythonDeps => "Installing Python dependencies..."
  | .installedPythonDeps => "Installed Python dependencies (or dependencies already installed)"
  | .typedocRequiresTsConfig =>
    "Initialization of tsconfig.json disabled. TypeDoc requires a tsconfig.json; please ensure it exists"

/-- A log entry: the channel it is emitted on and the message. -/
abbrev Entry := Channel × LogMsg

/-- The characters after the first `://` of a string, or `none` when
there is no `://`. -/
def afterSchemeSep : List Char → Option (List Char)
  | ':' :: '/' :: '/' :: rest => some rest
  | _ :: rest => afterSchemeSep rest
  | [] => none

/-- Models the external WHATWG URL parser used via `new URL(u).pathname`
for the absolute `http(s)`-style URLs this module handles (no query or
fragment): `none` models the `TypeError` thrown on an input with no
scheme, otherwise the path part starting at the first `/` after the
authority, or `"/"` when there is none. -/
def urlPathname (u : String) : Option String :=
  match afterSchemeSep u.toList with
  | none => none
  | some rest =>
    match rest.dropWhile (fun c => c ≠ '/') with
    | [] => some "/"
    | cs => some (String.mk cs)

/-- JS `String.prototype.split` with a single-character separator, on
character lists: `"".split(sep)` is `[""]`, and separators delimit
(possibly empty) groups. -/
def splitChar (sep : Char) : List Char → List (List Char)
  | [] => [[]]
  | c :: cs =>
    let r := splitChar sep cs
    if c = sep then [] :: r
    else
      match r with
      | [] => [[c]]
      | g :: gs => (c :: g) :: gs

/-- JS `repo.replace(/\.git$/, '')`: strips one trailing `.git`. -/
def stripDotGit (repo : List Char) : List Char :=
  if repo.reverse.take 4 = ['t', 'i', 'g', '.'] then (repo.reverse.drop 4).reverse
  else repo

/-- Lines 105–108 given the parsed pathname: `pathname.slice(1)` then
`.split('/')`, destructure into `owner` and `repo`, strip the trailing
`.git` from `repo`, join with `/`.  When the path has fewer than two
segments, `repo` destructures to `undefined` and `repo.replace` throws
a `TypeError`, modelled by the error case. -/
def repoNameOfPathname (pathname : String) : Except String String :=
  match splitChar '/' (pathname.toList.drop 1) with
  | owner :: repo :: _ => .ok (String.mk (owner ++ '/' :: stripDotGit repo))
  | _ => .error "TypeError: Cannot read properties of undefined (reading 'replace')"

/-- The repo-name derivation of the mkdocs transform (lines 104–108):
`new URL(repoUrl)` (which throws on an invalid URL), then the pathname
manipulation of `repoNameOfPathname`. -/
def deriveRepoName (repoUrl : String) : Except String String :=
  match urlPathname repoUrl with
  | none => .error "TypeError: Invalid URL"
  | some pathname => repoNameOfPathname pathname

/-- Lines 88–94: `opts.siteName ?? content.site_name`, falling back to
`pkg.name ?? '(no name)'` when falsy, logging when the fallback value is
truthy. -/
def pickSiteName (opts : MkDocsOpts) (c : Content) (pkg : PackageJson) :
    JVal × List Entry :=
  let s0 := jsOr (optVal opts.siteName) (contentGet c "site_name")
  if truthy s0 then (s0, [])
  else
    let s1 := jsOr (optVal pkg.name) (.str "(no name)")
    (s1, if truthy s1 then [(Channel.init, LogMsg.usingSiteName s1.toStr)] else [])

/-- Lines 95–101: `opts.repoUrl ?? content.repo_url`, falling back to
`pkg.repository?.url` when falsy, logging when the fallback value is
truthy. -/
def pickRepoUrl (opts : MkDocsOpts) (c : Content) (pkg : PackageJson) :
    JVal × List Entry :=
  let r0 := jsOr (optVal opts.repoUrl) (contentGet c "repo_url")
  if truthy r0 then (r0, [])
  else
    let r1 := optVal (pkgRepositoryUrl pkg)
    (r1, if truthy r1 then [(Channel.init, LogMsg.usingRepoUrl r1.toStr)] else [])

/-- Lines 102–112: `opts.repoName ?? content.repo_name`; when the
resolved repo URL is truthy and this is falsy, derive the name from the
URL (which can throw, hence `Except`), logging when the derived value is
truthy. -/
def pickRepoName (repoUrl : JVal) (opts : MkDocsOpts) (c : Content) :
    Except String (JVal × List Entry) :=
  let n0 := jsOr (optVal opts.repoName) (contentGet c "repo_name")
  if truthy repoUrl && !truthy n0 then
    match deriveRepoName repoUrl.toStr with
    | .error e => .error e
    | .ok rn =>
      .ok (.str rn,
        if truthy (.str rn) then [(Channel.init, LogMsg.usingRepoName rn)] else [])
  else .ok (n0, [])

/-- Lines 113–119: `opts.siteDescription ?? content.site_description`,
falling back to `pkg.description` when falsy, logging when the fallback
value is truthy. -/
def pickSiteDescription (opts : MkDocsOpts) (c : Content) (pkg : PackageJson) :
    JVal × List Entry :=
  let d0 := jsOr (optVal opts.siteDescription) (contentGet c "site_description")
  if truthy d0 then (d0, [])
  else
    let d1 := optVal pkg.description
    (d1, if truthy d1 then [(Channel.init, LogMsg.usingSiteDescription d1.toStr)] else [])

/-- The mkdocs transform (lines 87–127): resolves the four fields in
program order, propagates a thrown exception from the repo-name
derivation (which prevents the site-description step from running), and
returns the spread `\x7b...content, site_name, repo_url, repo_name,
site_description\x7d` together with the log entries in emission order. -/
def mkDocsTransform (opts : MkDocsOpts) (c : Content) (pkg : PackageJson) :
    Except String (Content × List Entry) :=
  let sn := pickSiteName opts c pkg
  let ru := pickRepoUrl opts c pkg
  match pickRepoName ru.1 opts c with
  | .error e => .error e
  | .ok rn =>
    let sd := pickSiteDescription opts c pkg
    .ok
      (assocSet
        (assocSet
          (assocSet (assocSet c "site_name" sn.1) "repo_url" ru.1)
          "repo_name" rn.1)
        "site_description" sd.1,
       sn.2 ++ ru.2 ++ rn.2 ++ sd.2)

/-- Line 14: the default interpreter name. -/
def NAME_PYTHON : String := "python"

/-- The outcome of the external `exec` facility (`teen_process`),
consumed as an opaque service: either a resolved result carrying the
exit code and captured stdout, or a rejection carrying the error
message. -/
inductive ExecOutcome where
  | result : Int → String → ExecOutcome
  | failure : String → ExecOutcome

/-- What one `initPython` run produces: its resolution (ok) or
rejection (the thrown `DocutilsError` message), the log entries in
order, and whether a subprocess was spawned. -/
structure PythonRunResult where
  result : Except String Unit
  logs : List Entry
  spawned : Bool
deriving Repr

/-- The fixed error-message stem of the `DocutilsError`s thrown by
`initPython`. -/
def pyFailReason : String := "Could not install Python dependencies. Reason: "

/-- The argument list `['-m', 'pip', 'install', '-r', REQUIREMENTS_TXT_PATH]`
(line 139); the requirements path is resolved from the package root at
load time, so it is a parameter here. -/
def pipArgs (reqPath : String) : List String :=
  ["-m", "pip", "install", "-r", reqPath]

/-- `initPython` (lines 135–158).  In dry-run mode it logs the command
on the dry-run channel and does not spawn; otherwise it spawns and
inspects the outcome.  A non-zero exit code throws a `DocutilsError`
inside the `try`, which the function's own `catch` immediately rewraps,
so the stem appears twice before the stdout text; an exec rejection is
wrapped once.  The trailing `log.success` runs whenever no error was
thrown, including in dry-run mode. -/
def initPython (outcome : ExecOutcome) (reqPath : String)
    (pythonPath : String := NAME_PYTHON) (dryRun : Bool := false) : PythonRunResult :=
  let args := pipArgs reqPath
  let cmd := pythonPath ++ " " ++ String.intercalate " " args
  if dryRun then
    { result := .ok ()
      logs := [(Channel.dryRun, LogMsg.wouldExecute cmd),
               (Channel.init, LogMsg.installedPythonDeps)]
      spawned := false }
  else
    let pre : List Entry :=
      [(Channel.init, LogMsg.executingCommand cmd),
       (Channel.init, LogMsg.installingPythonDeps)]
    match outcome with
    | .result code stdout =>
      if code ≠ 0 then
        { result := .error (pyFailReason ++ (pyFailReason ++ stdout))
          logs := pre
          spawned := true }
      else
        { result := .ok ()
          logs := pre ++ [(Channel.init, LogMsg.installedPythonDeps)]
          spawned := true }
    | .failure msg =>
      { result := .error (pyFailReason ++ msg)
        logs := pre
        spawned := true }

/-- The four conditional steps of `init`, in source order. -/
inductive StepId where
  | tsconfig : StepId
  | typedoc : StepId
  | python : StepId
  | mkdocs : StepId
deriving DecidableEq, Repr

/-- One conditional `if (flag) await task(...)` statement of `init`: if
an earlier statement already threw, the statement does not run (the
exception propagates); otherwise, when the flag is set, the step runs,
is recorded, and its failure becomes the pending exception. -/
def stepRun (run : StepId → Except String Unit) (flag : Bool) (s : StepId)
    (acc : List StepId × Except String Unit) : List StepId × Except String Unit :=
  match acc.2 with
  | .error e => (acc.1, .error e)
  | .ok _ =>
    if flag then
      match run s with
      | .error e => (acc.1 ++ [s], .error e)
      | .ok _ => (acc.1 ++ [s], .ok ())
    else acc

/-- The `init` orchestrator (lines 177–240), with the four tasks
abstracted as `run` (their bodies live behind `createScaffoldTask` /
`initPython`): the warning when typedoc is requested without
typescript, then the four conditional awaited steps in source order.
Returns the orchestrator's own log entries, the steps attempted in
order, and the overall resolution. -/
def init (typescript typedoc python mkdocs : Bool)
    (run : StepId → Except String Unit) :
    List Entry × List StepId × Except String Unit :=
  let logs : List Entry :=
    if !typescript && typedoc then [(Channel.init, LogMsg.typedocRequiresTsConfig)] else []
  let r :=
    stepRun run mkdocs .mkdocs
      (stepRun run python .python
        (stepRun run typedoc .typedoc
          (stepRun run typescript .tsconfig ([], .ok ()))))
  (logs, r)

/-- The steps `init` enables, in source order. -/
def enabledSteps (typescript typedoc python mkdocs : Bool) : List StepId :=
  (if typescript then [StepId.tsconfig] else []) ++
  (if typedoc then [StepId.typedoc] else []) ++
  (if python then [StepId.python] else []) ++
  (if mkdocs then [StepId.mkdocs] else [])

/-- Sequential execution of a list of steps with first-failure abort:
the attempted steps and the propagated result. -/
def runSeq (run : StepId → Except String Unit) : List StepId → List StepId × Except String Unit
  | [] => ([], .ok ())
  | s :: rest =>
    match run s with
    | .error e => ([s], .error e)
    | .ok _ =>
      let r := runSeq run rest
      (s :: r.1, r.2)

/-- Base `mkdocs.yml` template (lines 18–20). -/
def BASE_MKDOCS_YML : Content :=
  [("INHERIT", .str "./node_modules/@appium/docutils/base-mkdocs.yml")]

/-- Base `typedoc.json` template (lines 25–37). -/
def BASE_TYPEDOC_JSON : Content :=
  [("$schema", .str "https://typedoc.org/schema.json"),
   ("cleanOutputDir", .bool true),
   ("entryPointStrategy", .str "packages"),
   ("theme", .str "appium"),
   ("plugin", .arr [.str "@appium/typedoc-plugin-appium",
                    .str "typedoc-plugin-markdown",
                    .str "typedoc-plugin-resolve-crossmodule-references"]),
   ("readme", .str "none"),
   ("entryPoints", .arr [.str "."])]

/-- Base `tsconfig.json` template (lines 42–49). -/
def BASE_TSCONFIG_JSON : Content :=
  [("$schema", .str "https://json.schemastore.org/tsconfig"),
   ("extends", .str "@appium/tsconfig/tsconfig.json"),
   ("compilerOptions", .obj [("outDir", .str "build")]),
   ("include", .arr [.str "lib", .str "src", .str "test"])]

/-- The three scaffold file kinds produced by `createScaffoldTask`. -/
inductive TaskKind where
  | tsconfig : TaskKind
  | typedoc : TaskKind
  | mkdocs : TaskKind
deriving DecidableEq, Repr

/-- The store of shared base template objects, threaded through task
invocations so that (non-)mutation across invocations is observable in
the model. -/
structure TemplateStore where
  mkdocsTemplate : Content
  tsconfigTemplate : Content
  typedocTemplate : Content

/-- The template a task of the given kind starts from. -/
def TemplateStore.get (ts : TemplateStore) : TaskKind → Content
  | .tsconfig => ts.tsconfigTemplate
  | .typedoc => ts.typedocTemplate
  | .mkdocs => ts.mkdocsTemplate

/-- The template store as loaded from this module: the three frozen
base objects. -/
def initialTemplates : TemplateStore :=
  { mkdocsTemplate := BASE_MKDOCS_YML
    tsconfigTemplate := BASE_TSCONFIG_JSON
    typedocTemplate := BASE_TYPEDOC_JSON }

/-- State threaded through scaffold-task invocations: the shared
templates and the destination filesystem (resolved destination path to
parsed content). -/
structure TaskState where
  templates : TemplateStore
  files : List (String × Content)

/-- One scaffold-task invocation: kind, resolved destination path,
flags, and the option/metadata inputs seen by the transform hook. -/
structure Invocation where
  kind : TaskKind
  dest : String
  overwrite : Bool := false
  dryRun : Bool := false
  opts : MkDocsOpts := {}
  pkg : PackageJson := {}

/-- Modelled from the spec: the scaffold-task shell of
`createScaffoldTask` (`init-task.ts`, not under this tree), design
document §4.2.  The working content is the existing file when present
and not overwritten, else a fresh copy of the base template; the
file-specific transform (the mkdocs transform here, the identity for
tsconfig/typedoc) produces the final content; in dry-run mode nothing
is written.  Exceptions from the transform propagate. -/
def runInvocation (st : TaskState) (iv : Invocation) :
    Except String (TaskState × List Entry) :=
  let template := st.templates.get iv.kind
  let start :=
    match st.files.lookup iv.dest with
    | some existing => if iv.overwrite then template else existing
    | none => template
  let transformed : Except String (Content × List Entry) :=
    match iv.kind with
    | .mkdocs => mkDocsTransform iv.opts start iv.pkg
    | _ => .ok (start, [])
  match transformed with
  | .error e => .error e
  | .ok (out, logs) =>
    .ok ({ st with
           files := if iv.dryRun then st.files else assocSet st.files iv.dest out },
         logs)

/-- A sequence of scaffold-task invocations, aborting at the first
thrown exception. -/
def runInvocations (st : TaskState) : List Invocation → Except String TaskState
  | [] => .ok st
  | iv :: rest =>
    match runInvocation st iv with
    | .error e => .error e
    | .ok (st1, _) => runInvocations st1 rest

/-- Recognizes the `Using site name from package.json` log line. -/
def isSiteNameLog : Entry → Bool
  | (_, .usingSiteName _) => true
  | _ => false

/-- Recognizes the `Using repo URL from package.json` log line. -/
def isRepoUrlLog : Entry → Bool
  | (_, .usingRepoUrl _) => true
  | _ => false

/-- Recognizes the `Using repo name from package.json` log line. -/
def isRepoNameLog : Entry → Bool
  | (_, .usingRepoName _) => true
  | _ => false

/-- Recognizes the `Using site description URL from package.json` log
line. -/
def isSiteDescriptionLog : Entry → Bool
  | (_, .usingSiteDescription _) => true
  | _ => false

/-! ### Association-list lemmas -/

theorem lookup_assocSet_eq {β : Type} (c : List (String × β)) (k : String) (v : β) :
    (assocSet c k v).lookup k = some v := by
  induction c with
  | nil => simp [assocSet]
  | cons hd tl ih =>
    obtain ⟨k', v'⟩ := hd
    by_cases h : k' = k
    · subst h; simp [assocSet]
    · have hb : (k == k') = false := beq_eq_false_iff_ne.mpr (Ne.symm h)
      simp [assocSet, h, ih, List.lookup, hb]

theorem lookup_assocSet_ne {β : Type} (c : List (String × β)) (k k2 : String) (v : β)
    (h : k2 ≠ k) : (assocSet c k v).lookup k2 = c.lookup k2 := by
  have hb : (k2 == k) = false := beq_eq_false_iff_ne.mpr h
  induction c with
  | nil => simp [assocSet, List.lookup, hb]
  | cons hd tl ih =>
    obtain ⟨k', v'⟩ := hd
    by_cases h' : k' = k
    · subst h'; simp [assocSet, List.lookup, hb]
    · simp [assocSet, h', List.lookup, ih]

/-! ### Shape lemmas for the mkdocs transform -/

theorem mkDocsTransform_ok_of_pick (opts : MkDocsOpts) (c : Content) (pkg : PackageJson)
    (rn : JVal) (l3 : List Entry)
    (hp : pickRepoName (pickRepoUrl opts c pkg).1 opts c = .ok (rn, l3)) :
    mkDocsTransform opts c pkg = .ok
      (assocSet
        (assocSet
          (assocSet (assocSet c "site_name" (pickSiteName opts c pkg).1)
            "repo_url" (pickRepoUrl opts c pkg).1)
          "repo_name" rn)
        "site_description" (pickSiteDescription opts c pkg).1,
       (pickSiteName opts c pkg).2 ++ (pickRepoUrl opts c pkg).2 ++ l3 ++
         (pickSiteDescription opts c pkg).2) := by
  simp [mkDocsTransform, hp]

theorem mkDocsTransform_error_of_pick (opts : MkDocsOpts) (c : Content) (pkg : PackageJson)
    (e : String)
    (hp : pickRepoName (pickRepoUrl opts c pkg).1 opts c = .error e) :
    mkDocsTransform opts c pkg = .error e := by
  simp [mkDocsTransform, hp]

theorem mkDocsTransform_ok_inv (opts : MkDocsOpts) (c : Content) (pkg : PackageJson)
    (out : Content) (logs : List Entry)
    (h : mkDocsTransform opts c pkg = .ok (out, logs)) :
    ∃ rn l3,
      pickRepoName (pickRepoUrl opts c pkg).1 opts c = .ok (rn, l3) ∧
      out = assocSet
        (assocSet
          (assocSet (assocSet c "site_name" (pickSiteName opts c pkg).1)
            "repo_url" (pickRepoUrl opts c pkg).1)
          "repo_name" rn)
        "site_description" (pickSiteDescription opts c pkg).1 ∧
      logs = (pickSiteName opts c pkg).2 ++ (pickRepoUrl opts c pkg).2 ++ l3 ++
        (pickSiteDescription opts c pkg).2 := by
  cases hp : pickRepoName (pickRepoUrl opts c pkg).1 opts c with
  | error e =>
    rw [mkDocsTransform_error_of_pick opts c pkg e hp] at h
    exact absurd h (by simp)
  | ok p =>
    obtain ⟨rn, l3⟩ := p
    refine ⟨rn, l3, hp ▸ rfl, ?_⟩
    rw [mkDocsTransform_ok_of_pick opts c pkg rn l3 hp] at h
    have := Except.ok.inj h
    exact ⟨congrArg Prod.fst this.symm, congrArg Prod.snd this.symm⟩

theorem truthy_str_of_ne (s : String) (h : s ≠ "") : truthy (.str s) = true := by
  simp [truthy, h]

/-- C2: in the mkdocs transform, if the resolved repository URL is
`https://github.com/owner/repo.git` and neither an explicit `repoName`
option nor an existing `repo_name` key is present, the transform
succeeds and the derived `repo_name` is exactly `owner/repo` (path
parsed, leading separator stripped, owner and repo segments split, the
trailing `.git` stripped from the repo segment, segments joined with
`/`). -/
theorem mkDocs_repoName_derivation (opts : MkDocsOpts) (c : Content) (pkg : PackageJson)
    (hurl : (pickRepoUrl opts c pkg).1 = .str "https://github.com/owner/repo.git")
    (hopt : opts.repoName = none)
    (hex : c.lookup "repo_name" = none) :
    ∃ out logs, mkDocsTransform opts c pkg = .ok (out, logs) ∧
      contentGet out "repo_name" = .str "owner/repo" := by
  have hn0 : jsOr (optVal opts.repoName) (contentGet c "repo_name") = .undefined := by
    simp [hopt, optVal, jsOr, contentGet, hex]
  have hpick : pickRepoName (pickRepoUrl opts c pkg).1 opts c =
      .ok (.str "owner/repo", [(Channel.init, LogMsg.usingRepoName "owner/repo")]) := by
    rw [hurl]
    simp only [pickRepoName, hn0]
    rfl
  refine ⟨_, _, mkDocsTransform_ok_of_pick opts c pkg _ _ hpick, ?_⟩
  unfold contentGet
  rw [lookup_assocSet_ne _ _ _ _ (by decide), lookup_assocSet_eq]
  rfl

/-- C2 witness: explicit `repoUrl` option, empty existing content,
empty metadata. -/
theorem mkDocs_repoName_derivation_witness :
    ∃ out logs,
      mkDocsTransform { repoUrl := some "https://github.com/owner/repo.git" } [] {} =
        .ok (out, logs) ∧
      contentGet out "repo_name" = .str "owner/repo" :=
  mkDocs_repoName_derivation { repoUrl := some "https://github.com/owner/repo.git" } [] {}
    rfl rfl rfl

/-- C3 counterexample: for the resolved repo URL
`https://github.com/owner` (a valid URL whose path has one segment) and
no repo name otherwise given, the transform does NOT complete: the
destructured `repo` segment is `undefined` and `repo.replace` throws a
`TypeError`, contradicting the claim that the invocation completes with
a malformed repo name accepted as-is. -/
theorem mkDocs_shortUrl_cex :
    mkDocsTransform { repoUrl := some "https://github.com/owner" } [] {} =
      .error "TypeError: Cannot read properties of undefined (reading 'replace')" := by
  rfl

/-- C3 (amended): for every invocation of the mkdocs transform where
the resolved repository URL is a valid URL whose path has fewer than
two segments and no repo name is otherwise given, the transform throws
(the repo segment destructures to `undefined` and `.replace` is invoked
on it); it does not complete with a malformed repo name. -/
theorem mkDocs_shortUrl_error (opts : MkDocsOpts) (c : Content) (pkg : PackageJson)
    (u p : String)
    (hurl : (pickRepoUrl opts c pkg).1 = .str u)
    (hne : u ≠ "")
    (hname : jsOr (optVal opts.repoName) (contentGet c "repo_name") = .undefined)
    (hpath : urlPathname u = some p)
    (hseg : (splitChar '/' (p.toList.drop 1)).length < 2) :
    ∃ e, mkDocsTransform opts c pkg = .error e := by
  have hd : ∃ e, deriveRepoName u = .error e := by
    have h1 : deriveRepoName u = repoNameOfPathname p := by
      unfold deriveRepoName
      rw [hpath]
    rw [h1]
    unfold repoNameOfPathname
    cases hsplit : splitChar '/' (p.toList.drop 1) with
    | nil => exact ⟨_, rfl⟩
    | cons a rest =>
      cases rest with
      | nil => exact ⟨_, rfl⟩
      | cons b r2 =>
        rw [hsplit] at hseg
        simp at hseg
        omega
  obtain ⟨e, he⟩ := hd
  have hpick : pickRepoName (pickRepoUrl opts c pkg).1 opts c = .error e := by
    rw [hurl]
    have hcond : (truthy (JVal.str u) &&
        !truthy (jsOr (optVal opts.repoName) (contentGet c "repo_name"))) = true := by
      simp [hname, truthy, hne]
    simp only [pickRepoName, hcond, if_true, JVal.toStr, he]
  exact ⟨e, mkDocsTransform_error_of_pick opts c pkg e hpick⟩

/-- C3 amended-claim witness at `https://github.com/owner`. -/
theorem mkDocs_shortUrl_error_witness :
    ∃ e, mkDocsTransform { repoUrl := some "https://github.com/owner" } [] {} = .error e :=
  mkDocs_shortUrl_error { repoUrl := some "https://github.com/owner" } [] {}
    "https://github.com/owner" "/owner" rfl (by decide) rfl rfl (by decide)

/-- C4: whenever the mkdocs transform returns, the returned content
agrees with the input content on every key other than `site_name`,
`repo_url`, `repo_name` and `site_description` — same presence, same
value; no other key is added, removed, or changed. -/
theorem mkDocs_frame_preservation (opts : MkDocsOpts) (c : Content) (pkg : PackageJson)
    (out : Content) (logs : List Entry) (k : String)
    (h : mkDocsTransform opts c pkg = .ok (out, logs))
    (hk : k ∉ ["site_name", "repo_url", "repo_name", "site_description"]) :
    out.lookup k = c.lookup k := by
  obtain ⟨rn, l3, hpick, hout, hlogs⟩ := mkDocsTransform_ok_inv opts c pkg out logs h
  simp only [List.mem_cons, List.not_mem_nil, or_false] at hk
  push_neg at hk
  obtain ⟨h1, h2, h3, h4⟩ := hk
  rw [hout, lookup_assocSet_ne _ _ _ _ h4, lookup_assocSet_ne _ _ _ _ h3,
    lookup_assocSet_ne _ _ _ _ h2, lookup_assocSet_ne _ _ _ _ h1]

/-- C4 witness: a content with an unrelated key `x`, preserved through
a successful transform. -/
theorem mkDocs_frame_preservation_witness :
    ([("x", JVal.str "1"), ("site_name", JVal.str "(no name)"), ("repo_url", JVal.undefined),
      ("repo_name", JVal.undefined), ("site_description", JVal.undefined)] : Content).lookup "x" =
      ([("x", JVal.str "1")] : Content).lookup "x" :=
  mkDocs_frame_preservation {} [("x", JVal.str "1")] {} _ _ "x" rfl (by decide)

/-! ### Field-level lemmas for the mkdocs transform -/

theorem pickSiteName_fst_of_truthy (opts : MkDocsOpts) (c : Content) (pkg : PackageJson)
    (h : truthy (jsOr (optVal opts.siteName) (contentGet c "site_name")) = true) :
    (pickSiteName opts c pkg).1 = jsOr (optVal opts.siteName) (contentGet c "site_name") := by
  simp [pickSiteName, h]

theorem pickSiteName_fst_of_falsy (opts : MkDocsOpts) (c : Content) (pkg : PackageJson)
    (h : truthy (jsOr (optVal opts.siteName) (contentGet c "site_name")) = false) :
    (pickSiteName opts c pkg).1 = jsOr (optVal pkg.name) (.str "(no name)") := by
  simp [pickSiteName, h]

theorem pickRepoUrl_fst_of_truthy (opts : MkDocsOpts) (c : Content) (pkg : PackageJson)
    (h : truthy (jsOr (optVal opts.repoUrl) (contentGet c "repo_url")) = true) :
    (pickRepoUrl opts c pkg).1 = jsOr (optVal opts.repoUrl) (contentGet c "repo_url") := by
  simp [pickRepoUrl, h]

theorem pickRepoUrl_fst_of_falsy (opts : MkDocsOpts) (c : Content) (pkg : PackageJson)
    (h : truthy (jsOr (optVal opts.repoUrl) (contentGet c "repo_url")) = false) :
    (pickRepoUrl opts c pkg).1 = optVal (pkgRepositoryUrl pkg) := by
  simp [pickRepoUrl, h]

theorem pickSiteDescription_fst_of_truthy (opts : MkDocsOpts) (c : Content) (pkg : PackageJson)
    (h : truthy (jsOr (optVal opts.siteDescription) (contentGet c "site_description")) = true) :
    (pickSiteDescription opts c pkg).1 =
      jsOr (optVal opts.siteDescription) (contentGet c "site_description") := by
  simp [pickSiteDescription, h]

theorem pickSiteDescription_fst_of_falsy (opts : MkDocsOpts) (c : Content) (pkg : PackageJson)
    (h : truthy (jsOr (optVal opts.siteDescription) (contentGet c "site_description")) = false) :
    (pickSiteDescription opts c pkg).1 = optVal pkg.description := by
  simp [pickSiteDescription, h]

theorem pickRepoName_of_skip (ru : JVal) (opts : MkDocsOpts) (c : Content)
    (h : (truthy ru && !truthy (jsOr (optVal opts.repoName) (contentGet c "repo_name"))) = false) :
    pickRepoName ru opts c =
      .ok (jsOr (optVal opts.repoName) (contentGet c "repo_name"), []) := by
  simp [pickRepoName, h]

theorem pickRepoName_of_derive (ru : JVal) (opts : MkDocsOpts) (c : Content)
    (h : (truthy ru && !truthy (jsOr (optVal opts.repoName) (contentGet c "repo_name"))) = true) :
    pickRepoName ru opts c =
      match deriveRepoName ru.toStr with
      | .error e => .error e
      | .ok rn =>
        .ok (.str rn,
          if truthy (.str rn) then [(Channel.init, LogMsg.usingRepoName rn)] else []) := by
  simp [pickRepoName, h]

/-- C1 counterexample: with no explicit option, no existing value and
no metadata name, the returned `site_name` is the fabricated
placeholder `(no name)` rather than absent, refuting the claim that
the field falls through to absent and never receives a fabricated
value. -/
theorem mkDocs_placeholder_cex :
    mkDocsTransform {} [] {} =
      .ok ([("site_name", JVal.str "(no name)"), ("repo_url", JVal.undefined),
            ("repo_name", JVal.undefined), ("site_description", JVal.undefined)],
           [(Channel.init, LogMsg.usingSiteName "(no name)")]) ∧
    contentGet [("site_name", JVal.str "(no name)"), ("repo_url", JVal.undefined),
      ("repo_name", JVal.undefined), ("site_description", JVal.undefined)] "site_name" ≠ JVal.undefined :=
  ⟨rfl, fun h => JVal.noConfusion h⟩

/-- C1 (amended): for each of the four fields, precedence is: the
explicit option when it is a non-empty string; else the existing
content value when the option is `undefined` and that value is truthy;
else — when the option coalesced with the existing value is falsy, in
particular when a present-but-empty option shadowed the existing
value — the metadata-derived fallback.  The fallbacks are: for
`site_name`, `pkg.name ?? '(no name)'`, so the field receives the
fabricated placeholder when the metadata name is absent; for
`repo_url`, `pkg.repository?.url`; for `site_description`,
`pkg.description`; for `repo_name`, the value derived from the
resolved repo URL when that URL is truthy, else the falsy coalesced
value itself. -/
theorem mkDocs_field_precedence (opts : MkDocsOpts) (c : Content) (pkg : PackageJson)
    (out : Content) (logs : List Entry)
    (h : mkDocsTransform opts c pkg = .ok (out, logs)) :
    ((∀ s, opts.siteName = some s → s ≠ "" → contentGet out "site_name" = .str s) ∧
     (opts.siteName = none → truthy (contentGet c "site_name") = true →
       contentGet out "site_name" = contentGet c "site_name") ∧
     (truthy (jsOr (optVal opts.siteName) (contentGet c "site_name")) = false →
       contentGet out "site_name" = jsOr (optVal pkg.name) (.str "(no name)"))) ∧
    ((∀ s, opts.repoUrl = some s → s ≠ "" → contentGet out "repo_url" = .str s) ∧
     (opts.repoUrl = none → truthy (contentGet c "repo_url") = true →
       contentGet out "repo_url" = contentGet c "repo_url") ∧
     (truthy (jsOr (optVal opts.repoUrl) (contentGet c "repo_url")) = false →
       contentGet out "repo_url" = optVal (pkgRepositoryUrl pkg))) ∧
    ((∀ s, opts.repoName = some s → s ≠ "" → contentGet out "repo_name" = .str s) ∧
     (opts.repoName = none → truthy (contentGet c "repo_name") = true →
       contentGet out "repo_name" = contentGet c "repo_name") ∧
     (truthy (jsOr (optVal opts.repoName) (contentGet c "repo_name")) = false →
       truthy (pickRepoUrl opts c pkg).1 = false →
       contentGet out "repo_name" = jsOr (optVal opts.repoName) (contentGet c "repo_name")) ∧
     (truthy (jsOr (optVal opts.repoName) (contentGet c "repo_name")) = false →
       truthy (pickRepoUrl opts c pkg).1 = true →
       ∃ rn, deriveRepoName (pickRepoUrl opts c pkg).1.toStr = .ok rn ∧
         contentGet out "repo_name" = .str rn)) ∧
    ((∀ s, opts.siteDescription = some s → s ≠ "" →
       contentGet out "site_description" = .str s) ∧
     (opts.siteDescription = none → truthy (contentGet c "site_description") = true →
       contentGet out "site_description" = contentGet c "site_description") ∧
     (truthy (jsOr (optVal opts.siteDescription) (contentGet c "site_description")) = false →
       contentGet out "site_description" = optVal pkg.description)) := by
  obtain ⟨rn, l3, hpick, hout, hlogs⟩ := mkDocsTransform_ok_inv opts c pkg out logs h
  have hsn : contentGet out "site_name" = (pickSiteName opts c pkg).1 := by
    rw [hout]
    unfold contentGet
    rw [lookup_assocSet_ne _ _ _ _ (by decide), lookup_assocSet_ne _ _ _ _ (by decide),
      lookup_assocSet_ne _ _ _ _ (by decide), lookup_assocSet_eq]
    rfl
  have hru : contentGet out "repo_url" = (pickRepoUrl opts c pkg).1 := by
    rw [hout]
    unfold contentGet
    rw [lookup_assocSet_ne _ _ _ _ (by decide), lookup_assocSet_ne _ _ _ _ (by decide),
      lookup_assocSet_eq]
    rfl
  have hrn : contentGet out "repo_name" = rn := by
    rw [hout]
    unfold contentGet
    rw [lookup_assocSet_ne _ _ _ _ (by decide), lookup_assocSet_eq]
    rfl
  have hsd : contentGet out "site_description" = (pickSiteDescription opts c pkg).1 := by
    rw [hout]
    unfold contentGet
    rw [lookup_assocSet_eq]
    rfl
  refine ⟨⟨?_, ?_, ?_⟩, ⟨?_, ?_, ?_⟩, ⟨?_, ?_, ?_, ?_⟩, ⟨?_, ?_, ?_⟩⟩
  · intro s hs hsne
    have hj : jsOr (optVal opts.siteName) (contentGet c "site_name") = .str s := by
      simp [hs, optVal, jsOr]
    rw [hsn, pickSiteName_fst_of_truthy opts c pkg (by rw [hj]; exact truthy_str_of_ne s hsne),
      hj]
  · intro hs htr
    have hj : jsOr (optVal opts.siteName) (contentGet c "site_name") = contentGet c "site_name" := by
      simp [hs, optVal, jsOr]
    rw [hsn, pickSiteName_fst_of_truthy opts c pkg (by rw [hj]; exact htr), hj]
  · intro hf
    rw [hsn, pickSiteName_fst_of_falsy opts c pkg hf]
  · intro s hs hsne
    have hj : jsOr (optVal opts.repoUrl) (contentGet c "repo_url") = .str s := by
      simp [hs, optVal, jsOr]
    rw [hru, pickRepoUrl_fst_of_truthy opts c pkg (by rw [hj]; exact truthy_str_of_ne s hsne),
      hj]
  · intro hs htr
    have hj : jsOr (optVal opts.repoUrl) (contentGet c "repo_url") = contentGet c "repo_url" := by
      simp [hs, optVal, jsOr]
    rw [hru, pickRepoUrl_fst_of_truthy opts c pkg (by rw [hj]; exact htr), hj]
  · intro hf
    rw [hru, pickRepoUrl_fst_of_falsy opts c pkg hf]
  · intro s hs hsne
    have hj : jsOr (optVal opts.repoName) (contentGet c "repo_name") = .str s := by
      simp [hs, optVal, jsOr]
    have hskip : (truthy (pickRepoUrl opts c pkg).1 &&
        !truthy (jsOr (optVal opts.repoName) (contentGet c "repo_name"))) = false := by
      rw [hj, truthy_str_of_ne s hsne]
      simp
    have hs2 := pickRepoName_of_skip (pickRepoUrl opts c pkg).1 opts c hskip
    rw [hs2] at hpick
    injection Except.ok.inj hpick with h1 h2
    rw [hrn, ← h1, hj]
  · intro hs htr
    have hj : jsOr (optVal opts.repoName) (contentGet c "repo_name") = contentGet c "repo_name" := by
      simp [hs, optVal, jsOr]
    have hskip : (truthy (pickRepoUrl opts c pkg).1 &&
        !truthy (jsOr (optVal opts.repoName) (contentGet c "repo_name"))) = false := by
      rw [hj, htr]
      simp
    have hs2 := pickRepoName_of_skip (pickRepoUrl opts c pkg).1 opts c hskip
    rw [hs2] at hpick
    injection Except.ok.inj hpick with h1 h2
    rw [hrn, ← h1, hj]
  · intro hf hu
    have hskip : (truthy (pickRepoUrl opts c pkg).1 &&
        !truthy (jsOr (optVal opts.repoName) (contentGet c "repo_name"))) = false := by
      rw [hf, hu]
      simp
    have hs2 := pickRepoName_of_skip (pickRepoUrl opts c pkg).1 opts c hskip
    rw [hs2] at hpick
    injection Except.ok.inj hpick with h1 h2
    rw [hrn, ← h1]
  · intro hf hu
    have hcond : (truthy (pickRepoUrl opts c pkg).1 &&
        !truthy (jsOr (optVal opts.repoName) (contentGet c "repo_name"))) = true := by
      rw [hf, hu]
      simp
    have hder := pickRepoName_of_derive (pickRepoUrl opts c pkg).1 opts c hcond
    rw [hder] at hpick
    cases hde : deriveRepoName (pickRepoUrl opts c pkg).1.toStr with
    | error e => rw [hde] at hpick; exact absurd hpick (by simp)
    | ok rn2 =>
      rw [hde] at hpick
      injection Except.ok.inj hpick with h1 h2
      exact ⟨rn2, rfl, by rw [hrn, ← h1]⟩
  · intro s hs hsne
    have hj : jsOr (optVal opts.siteDescription) (contentGet c "site_description") = .str s := by
      simp [hs, optVal, jsOr]
    rw [hsd,
      pickSiteDescription_fst_of_truthy opts c pkg (by rw [hj]; exact truthy_str_of_ne s hsne),
      hj]
  · intro hs htr
    have hj : jsOr (optVal opts.siteDescription) (contentGet c "site_description") =
        contentGet c "site_description" := by
      simp [hs, optVal, jsOr]
    rw [hsd, pickSiteDescription_fst_of_truthy opts c pkg (by rw [hj]; exact htr), hj]
  · intro hf
    rw [hsd, pickSiteDescription_fst_of_falsy opts c pkg hf]

/-- C1 witness: an explicit non-empty `siteName` option wins. -/
theorem mkDocs_field_precedence_witness :
    contentGet [("site_name", JVal.str "X"), ("repo_url", JVal.undefined),
      ("repo_name", JVal.undefined), ("site_description", JVal.undefined)] "site_name" = JVal.str "X" :=
  (mkDocs_field_precedence { siteName := some "X" } [] {} _ _ rfl).1.1 "X" rfl (by decide)

/-! ### Log-emission lemmas for the mkdocs transform -/

theorem repoNameOfPathname_ne_empty (pathname rn : String)
    (h : repoNameOfPathname pathname = .ok rn) : rn ≠ "" := by
  unfold repoNameOfPathname at h
  cases hs : splitChar '/' (pathname.toList.drop 1) with
  | nil => rw [hs] at h; exact absurd h (by simp)
  | cons a rest =>
    cases rest with
    | nil => rw [hs] at h; exact absurd h (by simp)
    | cons b r2 =>
      rw [hs] at h
      intro hrn
      rw [hrn] at h
      have h2 := Except.ok.inj h
      have h3 : a ++ '/' :: stripDotGit b = [] := congrArg String.data h2
      simp at h3

theorem deriveRepoName_ne_empty (u rn : String) (h : deriveRepoName u = .ok rn) :
    rn ≠ "" := by
  unfold deriveRepoName at h
  cases hu : urlPathname u with
  | none => rw [hu] at h; exact absurd h (by simp)
  | some pathname =>
    rw [hu] at h
    exact repoNameOfPathname_ne_empty pathname rn h

theorem pickSiteName_snd_mem (opts : MkDocsOpts) (c : Content) (pkg : PackageJson) :
    ∀ e ∈ (pickSiteName opts c pkg).2, ∃ v, e = (Channel.init, LogMsg.usingSiteName v) := by
  intro e he
  by_cases h1 : truthy (jsOr (optVal opts.siteName) (contentGet c "site_name")) = true
  · simp [pickSiteName, h1] at he
  · rw [Bool.not_eq_true] at h1
    by_cases h2 : truthy (jsOr (optVal pkg.name) (.str "(no name)")) = true
    · simp [pickSiteName, h1, h2] at he
      exact ⟨_, he⟩
    · rw [Bool.not_eq_true] at h2
      simp [pickSiteName, h1, h2] at he

theorem pickRepoUrl_snd_mem (opts : MkDocsOpts) (c : Content) (pkg : PackageJson) :
    ∀ e ∈ (pickRepoUrl opts c pkg).2, ∃ v, e = (Channel.init, LogMsg.usingRepoUrl v) := by
  intro e he
  by_cases h1 : truthy (jsOr (optVal opts.repoUrl) (contentGet c "repo_url")) = true
  · simp [pickRepoUrl, h1] at he
  · rw [Bool.not_eq_true] at h1
    by_cases h2 : truthy (optVal (pkgRepositoryUrl pkg)) = true
    · simp [pickRepoUrl, h1, h2] at he
      exact ⟨_, he⟩
    · rw [Bool.not_eq_true] at h2
      simp [pickRepoUrl, h1, h2] at he

theorem pickSiteDescription_snd_mem (opts : MkDocsOpts) (c : Content) (pkg : PackageJson) :
    ∀ e ∈ (pickSiteDescription opts c pkg).2,
      ∃ v, e = (Channel.init, LogMsg.usingSiteDescription v) := by
  intro e he
  by_cases h1 : truthy (jsOr (optVal opts.siteDescription) (contentGet c "site_description")) = true
  · simp [pickSiteDescription, h1] at he
  · rw [Bool.not_eq_true] at h1
    by_cases h2 : truthy (optVal pkg.description) = true
    · simp [pickSiteDescription, h1, h2] at he
      exact ⟨_, he⟩
    · rw [Bool.not_eq_true] at h2
      simp [pickSiteDescription, h1, h2] at he

theorem pickRepoName_snd_mem (ru : JVal) (opts : MkDocsOpts) (c : Content)
    (rn : JVal) (l3 : List Entry) (hp : pickRepoName ru opts c = .ok (rn, l3)) :
    ∀ e ∈ l3, ∃ v, e = (Channel.init, LogMsg.usingRepoName v) := by
  intro e he
  by_cases hc : (truthy ru && !truthy (jsOr (optVal opts.repoName) (contentGet c "repo_name"))) = true
  · cases hd : deriveRepoName ru.toStr with
    | error e2 =>
      have hr : pickRepoName ru opts c = .error e2 := by simp [pickRepoName, hc, hd]
      rw [hr] at hp
      exact absurd hp (by simp)
    | ok rn2 =>
      have hne := deriveRepoName_ne_empty ru.toStr rn2 hd
      have hps : pickRepoName ru opts c =
          .ok (.str rn2, [(Channel.init, LogMsg.usingRepoName rn2)]) := by
        simp [pickRepoName, hc, hd, truthy_str_of_ne rn2 hne]
      rw [hps] at hp
      injection Except.ok.inj hp with h1 h2
      rw [← h2] at he
      simp at he
      exact ⟨_, he⟩
  · have hps := pickRepoName_of_skip ru opts c (by rw [Bool.not_eq_true] at hc; exact hc)
    rw [hps] at hp
    injection Except.ok.inj hp with h1 h2
    rw [← h2] at he
    simp at he

theorem pickSiteName_snd_ne_nil_iff (opts : MkDocsOpts) (c : Content) (pkg : PackageJson) :
    (pickSiteName opts c pkg).2 ≠ [] ↔
      (truthy (jsOr (optVal opts.siteName) (contentGet c "site_name")) = false ∧
       truthy (jsOr (optVal pkg.name) (.str "(no name)")) = true) := by
  unfold pickSiteName
  by_cases h1 : truthy (jsOr (optVal opts.siteName) (contentGet c "site_name")) = true
  · simp [h1]
  · rw [Bool.not_eq_true] at h1
    by_cases h2 : truthy (jsOr (optVal pkg.name) (.str "(no name)")) = true
    · simp [h1, h2]
    · rw [Bool.not_eq_true] at h2
      simp [h1, h2]

theorem pickRepoUrl_snd_ne_nil_iff (opts : MkDocsOpts) (c : Content) (pkg : PackageJson) :
    (pickRepoUrl opts c pkg).2 ≠ [] ↔
      (truthy (jsOr (optVal opts.repoUrl) (contentGet c "repo_url")) = false ∧
       truthy (optVal (pkgRepositoryUrl pkg)) = true) := by
  unfold pickRepoUrl
  by_cases h1 : truthy (jsOr (optVal opts.repoUrl) (contentGet c "repo_url")) = true
  · simp [h1]
  · rw [Bool.not_eq_true] at h1
    by_cases h2 : truthy (optVal (pkgRepositoryUrl pkg)) = true
    · simp [h1, h2]
    · rw [Bool.not_eq_true] at h2
      simp [h1, h2]

theorem pickSiteDescription_snd_ne_nil_iff (opts : MkDocsOpts) (c : Content)
    (pkg : PackageJson) :
    (pickSiteDescription opts c pkg).2 ≠ [] ↔
      (truthy (jsOr (optVal opts.siteDescription) (contentGet c "site_description")) = false ∧
       truthy (optVal pkg.description) = true) := by
  unfold pickSiteDescription
  by_cases h1 : truthy (jsOr (optVal opts.siteDescription) (contentGet c "site_description")) = true
  · simp [h1]
  · rw [Bool.not_eq_true] at h1
    by_cases h2 : truthy (optVal pkg.description) = true
    · simp [h1, h2]
    · rw [Bool.not_eq_true] at h2
      simp [h1, h2]

theorem pickRepoName_snd_ne_nil_iff (ru : JVal) (opts : MkDocsOpts) (c : Content)
    (rn : JVal) (l3 : List Entry) (hp : pickRepoName ru opts c = .ok (rn, l3)) :
    l3 ≠ [] ↔
      (truthy ru = true ∧
       truthy (jsOr (optVal opts.repoName) (contentGet c "repo_name")) = false) := by
  by_cases hc : (truthy ru && !truthy (jsOr (optVal opts.repoName) (contentGet c "repo_name"))) = true
  · cases hd : deriveRepoName ru.toStr with
    | error e2 =>
      have hr : pickRepoName ru opts c = .error e2 := by simp [pickRepoName, hc, hd]
      rw [hr] at hp
      exact absurd hp (by simp)
    | ok rn2 =>
      have hne := deriveRepoName_ne_empty ru.toStr rn2 hd
      have hps : pickRepoName ru opts c =
          .ok (.str rn2, [(Channel.init, LogMsg.usingRepoName rn2)]) := by
        simp [pickRepoName, hc, hd, truthy_str_of_ne rn2 hne]
      rw [hps] at hp
      injection Except.ok.inj hp with h1 h2
      rw [← h2]
      simp only [Bool.and_eq_true, Bool.not_eq_true'] at hc
      simp [hc]
  · have hps := pickRepoName_of_skip ru opts c (by rw [Bool.not_eq_true] at hc; exact hc)
    rw [hps] at hp
    injection Except.ok.inj hp with h1 h2
    rw [← h2]
    simp only [Bool.and_eq_true, Bool.not_eq_true'] at hc
    simp
    intro ha
    by_contra hb
    rw [Bool.not_eq_true, ← Bool.not_eq_true'] at hb
    exact hc ⟨ha, by rw [Bool.not_eq_true'] at hb; exact hb⟩

/-- C5 counterexample: project metadata with no `name`, an empty
existing file and no options — the transform still emits the
informational `Using site name from package.json` line (citing the
fabricated placeholder), although the metadata field is absent,
refuting the claim that such a line is never emitted when the metadata
field is itself absent. -/
theorem mkDocs_log_metadata_absent_cex :
    mkDocsTransform {} [] { description := some "A tool" } =
      .ok ([("site_name", JVal.str "(no name)"), ("repo_url", JVal.undefined),
            ("repo_name", JVal.undefined), ("site_description", JVal.str "A tool")],
           [(Channel.init, LogMsg.usingSiteName "(no name)"),
            (Channel.init, LogMsg.usingSiteDescription "A tool")]) := rfl

/-- C5 (amended): a `Using ... from package.json` informational line
for a field is emitted exactly when that field's fallback branch runs
(the option coalesced with the existing value is falsy) and the
fallback value is truthy.  For `site_name` the fallback value is
`pkg.name ?? '(no name)'`, which is truthy even when the metadata name
is absent, so the line is also emitted then; for `repo_name` the line
is emitted whenever the name is derived from the resolved repo URL,
which may itself come from an explicit option rather than metadata. -/
theorem mkDocs_log_characterization (opts : MkDocsOpts) (c : Content) (pkg : PackageJson)
    (out : Content) (logs : List Entry)
    (h : mkDocsTransform opts c pkg = .ok (out, logs)) :
    (logs.filter isSiteNameLog ≠ [] ↔
      (truthy (jsOr (optVal opts.siteName) (contentGet c "site_name")) = false ∧
       truthy (jsOr (optVal pkg.name) (.str "(no name)")) = true)) ∧
    (logs.filter isRepoUrlLog ≠ [] ↔
      (truthy (jsOr (optVal opts.repoUrl) (contentGet c "repo_url")) = false ∧
       truthy (optVal (pkgRepositoryUrl pkg)) = true)) ∧
    (logs.filter isRepoNameLog ≠ [] ↔
      (truthy (pickRepoUrl opts c pkg).1 = true ∧
       truthy (jsOr (optVal opts.repoName) (contentGet c "repo_name")) = false)) ∧
    (logs.filter isSiteDescriptionLog ≠ [] ↔
      (truthy (jsOr (optVal opts.siteDescription) (contentGet c "site_description")) = false ∧
       truthy (optVal pkg.description) = true)) := by
  obtain ⟨rn, l3, hpick, hout, hlogs⟩ := mkDocsTransform_ok_inv opts c pkg out logs h
  subst hlogs
  have m1 := pickSiteName_snd_mem opts c pkg
  have m2 := pickRepoUrl_snd_mem opts c pkg
  have m3 := pickRepoName_snd_mem (pickRepoUrl opts c pkg).1 opts c rn l3 hpick
  have m4 := pickSiteDescription_snd_mem opts c pkg
  refine ⟨?_, ?_, ?_, ?_⟩
  · have f1 : (pickSiteName opts c pkg).2.filter isSiteNameLog = (pickSiteName opts c pkg).2 :=
      List.filter_eq_self.mpr (by intro a ha; obtain ⟨v, hv⟩ := m1 a ha; rw [hv]; rfl)
    have f2 : (pickRepoUrl opts c pkg).2.filter isSiteNameLog = [] :=
      List.filter_eq_nil_iff.mpr
        (by intro a ha; obtain ⟨v, hv⟩ := m2 a ha; rw [hv]; simp [isSiteNameLog])
    have f3 : l3.filter isSiteNameLog = [] :=
      List.filter_eq_nil_iff.mpr
        (by intro a ha; obtain ⟨v, hv⟩ := m3 a ha; rw [hv]; simp [isSiteNameLog])
    have f4 : (pickSiteDescription opts c pkg).2.filter isSiteNameLog = [] :=
      List.filter_eq_nil_iff.mpr
        (by intro a ha; obtain ⟨v, hv⟩ := m4 a ha; rw [hv]; simp [isSiteNameLog])
    rw [List.filter_append, List.filter_append, List.filter_append, f1, f2, f3, f4]
    simp only [List.append_nil]
    exact pickSiteName_snd_ne_nil_iff opts c pkg
  · have f1 : (pickSiteName opts c pkg).2.filter isRepoUrlLog = [] :=
      List.filter_eq_nil_iff.mpr
        (by intro a ha; obtain ⟨v, hv⟩ := m1 a ha; rw [hv]; simp [isRepoUrlLog])
    have f2 : (pickRepoUrl opts c pkg).2.filter isRepoUrlLog = (pickRepoUrl opts c pkg).2 :=
      List.filter_eq_self.mpr (by intro a ha; obtain ⟨v, hv⟩ := m2 a ha; rw [hv]; rfl)
    have f3 : l3.filter isRepoUrlLog = [] :=
      List.filter_eq_nil_iff.mpr
        (by intro a ha; obtain ⟨v, hv⟩ := m3 a ha; rw [hv]; simp [isRepoUrlLog])
    have f4 : (pickSiteDescription opts c pkg).2.filter isRepoUrlLog = [] :=
      List.filter_eq_nil_iff.mpr
        (by intro a ha; obtain ⟨v, hv⟩ := m4 a ha; rw [hv]; simp [isRepoUrlLog])
    rw [List.filter_append, List.filter_append, List.filter_append, f1, f2, f3, f4]
    simp only [List.append_nil, List.nil_append]
    exact pickRepoUrl_snd_ne_nil_iff opts c pkg
  · have f1 : (pickSiteName opts c pkg).2.filter isRepoNameLog = [] :=
      List.filter_eq_nil_iff.mpr
        (by intro a ha; obtain ⟨v, hv⟩ := m1 a ha; rw [hv]; simp [isRepoNameLog])
    have f2 : (pickRepoUrl opts c pkg).2.filter isRepoNameLog = [] :=
      List.filter_eq_nil_iff.mpr
        (by intro a ha; obtain ⟨v, hv⟩ := m2 a ha; rw [hv]; simp [isRepoNameLog])
    have f3 : l3.filter isRepoNameLog = l3 :=
      List.filter_eq_self.mpr (by intro a ha; obtain ⟨v, hv⟩ := m3 a ha; rw [hv]; rfl)
    have f4 : (pickSiteDescription opts c pkg).2.filter isRepoNameLog = [] :=
      List.filter_eq_nil_iff.mpr
        (by intro a ha; obtain ⟨v, hv⟩ := m4 a ha; rw [hv]; simp [isRepoNameLog])
    rw [List.filter_append, List.filter_append, List.filter_append, f1, f2, f3, f4]
    simp only [List.append_nil, List.nil_append]
    exact pickRepoName_snd_ne_nil_iff (pickRepoUrl opts c pkg).1 opts c rn l3 hpick
  · have f1 : (pickSiteName opts c pkg).2.filter isSiteDescriptionLog = [] :=
      List.filter_eq_nil_iff.mpr
        (by intro a ha; obtain ⟨v, hv⟩ := m1 a ha; rw [hv]; simp [isSiteDescriptionLog])
    have f2 : (pickRepoUrl opts c pkg).2.filter isSiteDescriptionLog = [] :=
      List.filter_eq_nil_iff.mpr
        (by intro a ha; obtain ⟨v, hv⟩ := m2 a ha; rw [hv]; simp [isSiteDescriptionLog])
    have f3 : l3.filter isSiteDescriptionLog = [] :=
      List.filter_eq_nil_iff.mpr
        (by intro a ha; obtain ⟨v, hv⟩ := m3 a ha; rw [hv]; simp [isSiteDescriptionLog])
    have f4 : (pickSiteDescription opts c pkg).2.filter isSiteDescriptionLog =
        (pickSiteDescription opts c pkg).2 :=
      List.filter_eq_self.mpr (by intro a ha; obtain ⟨v, hv⟩ := m4 a ha; rw [hv]; rfl)
    rw [List.filter_append, List.filter_append, List.filter_append, f1, f2, f3, f4]
    simp only [List.append_nil, List.nil_append]
    exact pickSiteDescription_snd_ne_nil_iff opts c pkg

/-- C5 amended-claim witness: metadata with an absent name still makes
the site-name line appear. -/
theorem mkDocs_log_characterization_witness :
    ([(Channel.init, LogMsg.usingSiteName "(no name)"),
      (Channel.init, LogMsg.usingSiteDescription "A tool")] : List Entry).filter
        isSiteNameLog ≠ [] :=
  (mkDocs_log_characterization {} [] { description := some "A tool" } _ _ rfl).1.mpr
    (by decide)

/-- C7: whenever the spawned subprocess resolves with a non-zero exit
code and some stdout text, `initPython` rejects — the error is thrown,
never swallowed — and the thrown error's message contains that stdout
text (the `DocutilsError` raised on the non-zero code is rewrapped once
by the function's own catch, so the reason stem appears twice). -/
theorem initPython_nonzero_exit_error (code : Int) (stdout reqPath pythonPath : String)
    (h : code ≠ 0) :
    (initPython (.result code stdout) reqPath pythonPath false).result =
      .error (pyFailReason ++ (pyFailReason ++ stdout)) ∧
    ∃ p, pyFailReason ++ (pyFailReason ++ stdout) = p ++ stdout := by
  constructor
  · simp [initPython, h]
  · exact ⟨pyFailReason ++ pyFailReason, rfl⟩

/-- C7 witness: exit code 1 with stdout `boom`. -/
theorem initPython_nonzero_exit_error_witness :
    (initPython (.result 1 "boom") "/docutils/requirements.txt" "python" false).result =
      .error (pyFailReason ++ (pyFailReason ++ "boom")) ∧
    ∃ p, pyFailReason ++ (pyFailReason ++ "boom") = p ++ "boom" :=
  initPython_nonzero_exit_error 1 "boom" "/docutils/requirements.txt" "python" (by decide)

/-- C8: with `dryRun = true` and `pythonPath = "python3"`, `initPython`
logs `python3 -m pip install -r <requirements-path>` on the dry-run
channel (plus the unconditional success line), resolves, and spawns no
subprocess — regardless of what the exec facility would have done. -/
theorem initPython_dryRun_spec (outcome : ExecOutcome) (reqPath : String) :
    initPython outcome reqPath "python3" true =
      { result := .ok ()
        logs := [(Channel.dryRun,
                  LogMsg.wouldExecute ("python3 -m pip install -r " ++ reqPath)),
                 (Channel.init, LogMsg.installedPythonDeps)]
        spawned := false } ∧
    (LogMsg.wouldExecute ("python3 -m pip install -r " ++ reqPath)).render =
      "Would execute command: python3 -m pip install -r " ++ reqPath :=
  ⟨rfl, rfl⟩

/-- C10: the `copyright` option is never read by the mkdocs transform:
any value for it (versus omitting it) yields the identical result —
same output content, same logs, same error behaviour — both for the
transform itself and for a whole scaffold-task invocation. -/
theorem mkDocs_copyright_unused (opts : MkDocsOpts) (c : Content) (pkg : PackageJson)
    (v : Option String) :
    mkDocsTransform { opts with copyright := v } c pkg = mkDocsTransform opts c pkg ∧
    ∀ st iv, runInvocation st { iv with opts := { iv.opts with copyright := v } } =
      runInvocation st iv := by
  constructor
  · cases opts
    rfl
  · intro st iv
    cases iv with
    | mk kind dest ow dr o pkg2 =>
      cases o
      cases kind <;> rfl

/-! ### Orchestration lemmas -/

theorem stepRun_cons (run : StepId → Except String Unit) (flag : Bool) (s a : StepId)
    (acc : List StepId × Except String Unit) :
    stepRun run flag s (a :: acc.1, acc.2) =
      (a :: (stepRun run flag s acc).1, (stepRun run flag s acc).2) := by
  obtain ⟨steps, res⟩ := acc
  cases res with
  | error e => simp [stepRun]
  | ok u =>
    cases flag with
    | false => simp [stepRun]
    | true =>
      cases hr : run s with
      | error e => simp [stepRun, hr]
      | ok u2 => simp [stepRun, hr]

theorem stepRun_runSeq (run : StepId → Except String Unit) (flag : Bool) (s : StepId)
    (l : List StepId) :
    stepRun run flag s (runSeq run l) = runSeq run (l ++ if flag then [s] else []) := by
  induction l with
  | nil =>
    cases flag with
    | false => simp [stepRun, runSeq]
    | true =>
      cases hr : run s with
      | error e => simp [stepRun, runSeq, hr]
      | ok u => simp [stepRun, runSeq, hr]
  | cons a rest ih =>
    cases hr : run a with
    | error e => simp [stepRun, runSeq, hr]
    | ok u =>
      have hA : runSeq run (a :: rest) =
          (a :: (runSeq run rest).1, (runSeq run rest).2) := by
        simp [runSeq, hr]
      have hB : runSeq run (a :: (rest ++ if flag then [s] else [])) =
          (a :: (runSeq run (rest ++ if flag then [s] else [])).1,
           (runSeq run (rest ++ if flag then [s] else [])).2) := by
        simp [runSeq, hr]
      rw [List.cons_append, hA, hB, ← ih]
      exact stepRun_cons run flag s a (runSeq run rest)

theorem runSeq_steps_subset (run : StepId → Except String Unit) (l : List StepId) :
    ∀ s ∈ (runSeq run l).1, s ∈ l := by
  induction l with
  | nil => simp [runSeq]
  | cons a rest ih =>
    intro s hs
    cases hr : run a with
    | error e =>
      simp [runSeq, hr] at hs
      simp [hs]
    | ok u =>
      simp [runSeq, hr] at hs
      rcases hs with h | h
      · simp [h]
      · exact List.mem_cons_of_mem a (ih s h)

theorem runSeq_head_mem (run : StepId → Except String Unit) (s : StepId) (l : List StepId) :
    s ∈ (runSeq run (s :: l)).1 := by
  cases hr : run s with
  | error e => simp [runSeq, hr]
  | ok u => simp [runSeq, hr]

/-- C9: `init` runs exactly the enabled steps, in source order
(tsconfig, typedoc, python, mkdocs), sequentially with first-failure
abort — no step's failure is caught, the first failure skips all later
steps and is the overall result; and when typedoc is requested without
typescript, the `requires tsconfig.json` warning is logged, the
tsconfig step is never attempted, and the typedoc step still is. -/
theorem init_orchestration (ts td py mk : Bool) (run : StepId → Except String Unit) :
    (init ts td py mk run).1 =
      (if !ts && td then [(Channel.init, LogMsg.typedocRequiresTsConfig)] else []) ∧
    (init ts td py mk run).2 = runSeq run (enabledSteps ts td py mk) ∧
    (ts = false → td = true →
      (init ts td py mk run).1 = [(Channel.init, LogMsg.typedocRequiresTsConfig)] ∧
      StepId.tsconfig ∉ (init ts td py mk run).2.1 ∧
      StepId.typedoc ∈ (init ts td py mk run).2.1) := by
  have h2 : (init ts td py mk run).2 = runSeq run (enabledSteps ts td py mk) := by
    show stepRun run mk .mkdocs (stepRun run py .python (stepRun run td .typedoc
      (stepRun run ts .tsconfig ([], .ok ())))) = _
    have e0 : (([], Except.ok ()) : List StepId × Except String Unit) = runSeq run [] := rfl
    rw [e0, stepRun_runSeq, stepRun_runSeq, stepRun_runSeq, stepRun_runSeq]
    unfold enabledSteps
    simp [List.append_assoc]
  refine ⟨rfl, h2, ?_⟩
  intro hts htd
  subst hts
  subst htd
  refine ⟨rfl, ?_, ?_⟩
  · intro hmem
    rw [h2] at hmem
    have hsub := runSeq_steps_subset run (enabledSteps false true py mk) _ hmem
    cases py <;> cases mk <;> simp [enabledSteps] at hsub
  · have hE : enabledSteps false true py mk =
        StepId.typedoc :: ((if py then [StepId.python] else []) ++
          (if mk then [StepId.mkdocs] else [])) := by
      simp [enabledSteps]
    rw [h2, hE]
    exact runSeq_head_mem run .typedoc _

/-- C9 witness: `typescript = false`, `typedoc = true`, all steps
succeed. -/
theorem init_orchestration_witness :
    (init false true false false (fun _ => Except.ok ())).1 =
      [(Channel.init, LogMsg.typedocRequiresTsConfig)] ∧
    StepId.tsconfig ∉ (init false true false false (fun _ => Except.ok ())).2.1 ∧
    StepId.typedoc ∈ (init false true false false (fun _ => Except.ok ())).2.1 :=
  (init_orchestration false true false false (fun _ => Except.ok ())).2.2 rfl rfl

/-! ### Template immutability -/

theorem runInvocation_templates (st : TaskState) (iv : Invocation) (st1 : TaskState)
    (logs : List Entry) (h : runInvocation st iv = .ok (st1, logs)) :
    st1.templates = st.templates := by
  simp only [runInvocation] at h
  cases hk : iv.kind with
  | mkdocs =>
    rw [hk] at h
    cases hmt : mkDocsTransform iv.opts
        (match st.files.lookup iv.dest with
         | some existing => if iv.overwrite then st.templates.get iv.kind else existing
         | none => st.templates.get iv.kind) iv.pkg with
    | error e =>
      rw [hk] at hmt
      rw [hmt] at h
      exact absurd h (by simp)
    | ok p =>
      obtain ⟨out, lg⟩ := p
      rw [hk] at hmt
      rw [hmt] at h
      injection Except.ok.inj h with h1 h2
      rw [← h1]
  | tsconfig =>
    rw [hk] at h
    injection Except.ok.inj h with h1 h2
    rw [← h1]
  | typedoc =>
    rw [hk] at h
    injection Except.ok.inj h with h1 h2
    rw [← h1]

theorem runInvocations_templates (ivs : List Invocation) : ∀ st st' : TaskState,
    runInvocations st ivs = .ok st' → st'.templates = st.templates := by
  induction ivs with
  | nil =>
    intro st st' h
    have h1 := Except.ok.inj h
    rw [← h1]
  | cons iv rest ih =>
    intro st st' h
    unfold runInvocations at h
    cases hr : runInvocation st iv with
    | error e =>
      rw [hr] at h
      exact absurd h (by simp)
    | ok p =>
      obtain ⟨st1, lg⟩ := p
      rw [hr] at h
      have h1 := ih st1 st' h
      rw [h1, runInvocation_templates st iv st1 lg hr]

/-- C6: the shared base templates are never mutated by any sequence of
scaffold-task invocations (tsconfig, typedoc or mkdocs, with any
options, existing files, overwrite and dry-run flags): after any run
starting from the module's initial template store, the templates are
still exactly `BASE_MKDOCS_YML`, `BASE_TSCONFIG_JSON` and
`BASE_TYPEDOC_JSON`, so repeated runs observe identical templates. -/
theorem templates_immutable (files : List (String × Content)) (ivs : List Invocation)
    (st' : TaskState)
    (h : runInvocations ⟨initialTemplates, files⟩ ivs = .ok st') :
    st'.templates = initialTemplates ∧
    st'.templates.get .mkdocs = BASE_MKDOCS_YML ∧
    st'.templates.get .tsconfig = BASE_TSCONFIG_JSON ∧
    st'.templates.get .typedoc = BASE_TYPEDOC_JSON := by
  have h1 := runInvocations_templates ivs ⟨initialTemplates, files⟩ st' h
  exact ⟨h1, by rw [h1]; rfl, by rw [h1]; rfl, by rw [h1]; rfl⟩

/-- C6 witness: one non-dry-run mkdocs invocation on an empty
filesystem writes the file and leaves the templates untouched. -/
theorem templates_immutable_witness :
    (TaskState.mk initialTemplates
      [("mkdocs.yml",
        [("INHERIT", JVal.str "./node_modules/@appium/docutils/base-mkdocs.yml"),
         ("site_name", JVal.str "(no name)"), ("repo_url", JVal.undefined),
         ("repo_name", JVal.undefined), ("site_description", JVal.undefined)])]).templates =
      initialTemplates ∧
    (TaskState.mk initialTemplates
      [("mkdocs.yml",
        [("INHERIT", JVal.str "./node_modules/@appium/docutils/base-mkdocs.yml"),
         ("site_name", JVal.str "(no name)"), ("repo_url", JVal.undefined),
         ("repo_name", JVal.undefined), ("site_description", JVal.undefined)])]).templates.get
        .mkdocs = BASE_MKDOCS_YML ∧
    (TaskState.mk initialTemplates
      [("mkdocs.yml",
        [("INHERIT", JVal.str "./node_modules/@appium/docutils/base-mkdocs.yml"),
         ("site_name", JVal.str "(no name)"), ("repo_url", JVal.undefined),
         ("repo_name", JVal.undefined), ("site_description", JVal.undefined)])]).templates.get
        .tsconfig = BASE_TSCONFIG_JSON ∧
    (TaskState.mk initialTemplates
      [("mkdocs.yml",
        [("INHERIT", JVal.str "./node_modules/@appium/docutils/base-mkdocs.yml"),
         ("site_name", JVal.str "(no name)"), ("repo_url", JVal.undefined),
         ("repo_name", JVal.undefined), ("site_description", JVal.undefined)])]).templates.get
        .typedoc = BASE_TYPEDOC_JSON :=
  templates_immutable [] [{ kind := .mkdocs, dest := "mkdocs.yml" }] _ rfl

end Docutils
